import Mathlib

/-!
Shallow embedding of `src/jsonxf.rs` (the jsonxf JSON transformer).

Bytes are modelled as `Nat` (values 0..255 in practice; the machines are
total on all of `Nat`).  The two streaming transforms `pretty_print_stream`
and `minimize_stream` are single-pass Mealy machines; we model them as a
per-byte step function (`ppStep`, `minStep`) threaded over the input list
(`ppRun`, `minRun`).  The Rust `depth` variable is an `i32` that the code
freely decrements below zero, so it is modelled as `Int`; the Rust loop
`for _ in 0..depth` runs `max depth 0` times, modelled via `Int.toNat`.

The convenience wrappers `pretty_print` / `minimize` run the stream
transform on an in-memory byte vector and then perform the
`String::from_utf8` validity check; with an in-memory source and sink no
I/O error can occur, so the only failure modelled is the UTF-8 check.
-/

namespace Jsonxf

/-- Byte values treated as insignificant whitespace by both transforms:
space (32), tab (9), LF (10), CR (13). -/
def isWsByte (b : Nat) : Bool := b == 32 || b == 9 || b == 10 || b == 13

/-- Scanner state of `pretty_print_stream` (src/jsonxf.rs lines 45-53). -/
structure PPState where
  depth : Int
  in_string : Bool
  in_backslash : Bool
  whitespace_buffer : List Nat
  current_structure_is_empty : Bool
deriving Repr, DecidableEq

/-- Initial state of `pretty_print_stream`. -/
def ppInit : PPState :=
  { depth := 0, in_string := false, in_backslash := false,
    whitespace_buffer := [], current_structure_is_empty := false }

/-- One indentation block: `d` repetitions of `indent` (none when `d ≤ 0`,
matching Rust `for _ in 0..depth` on a possibly negative `i32`). -/
def indentRep (indent : List Nat) (d : Int) : List Nat :=
  (List.replicate d.toNat indent).flatten

/-- One step of `pretty_print_stream`: the bytes written for input byte `b`
from state `s`, and the successor state (src/jsonxf.rs lines 55-124). -/
def ppStep (indent : List Nat) (s : PPState) (b : Nat) : List Nat × PPState :=
  if s.in_string then
    ([b],
     if s.in_backslash then { s with in_backslash := false }
     else if b == 34 then { s with in_string := false }
     else if b == 92 then { s with in_backslash := true }
     else s)
  else if isWsByte b then
    ([], s)
  else if b == 123 || b == 91 then
    ([b],
     { s with depth := s.depth + 1,
              current_structure_is_empty := true,
              whitespace_buffer := 10 :: indentRep indent (s.depth + 1) })
  else if b == 125 || b == 93 then
    ((if s.current_structure_is_empty then [b]
      else 10 :: (indentRep indent (s.depth - 1) ++ [b])) ++
       (if s.depth - 1 == 0 then [10] else []),
     { s with depth := s.depth - 1, current_structure_is_empty := false })
  else if b == 44 then
    (b :: 10 :: indentRep indent s.depth, s)
  else if b == 58 then
    ([58, 32], s)
  else
    ((if s.current_structure_is_empty then s.whitespace_buffer else []) ++ [b],
     { s with current_structure_is_empty := false, in_string := b == 34 })

/-- Run `pretty_print_stream` from state `s` over the input bytes,
returning all written bytes and the final state. -/
def ppRun (indent : List Nat) : PPState → List Nat → List Nat × PPState
  | s, [] => ([], s)
  | s, b :: bs =>
    ((ppStep indent s b).1 ++ (ppRun indent (ppStep indent s b).2 bs).1,
     (ppRun indent (ppStep indent s b).2 bs).2)

/-- The byte transform performed by `pretty_print_stream` on a complete
in-memory input. -/
def pretty_print_stream (xs indent : List Nat) : List Nat :=
  (ppRun indent ppInit xs).1

/-- Scanner state of `minimize_stream` (src/jsonxf.rs lines 168-171). -/
structure MinState where
  in_string : Bool
  in_backslash : Bool
  depth : Int
  print_newline : Bool
deriving Repr, DecidableEq

/-- Initial state of `minimize_stream`. -/
def minInit : MinState :=
  { in_string := false, in_backslash := false, depth := 0, print_newline := false }

/-- One step of `minimize_stream` (src/jsonxf.rs lines 173-216).  Note that
`,` and `:` fall into the catch-all arm and are emitted verbatim. -/
def minStep (s : MinState) (b : Nat) : List Nat × MinState :=
  if s.in_string then
    ([b],
     if s.in_backslash then { s with in_backslash := false }
     else if b == 34 then { s with in_string := false }
     else if b == 92 then { s with in_backslash := true }
     else s)
  else if isWsByte b then
    ([], s)
  else if b == 123 || b == 91 then
    ((if s.depth == 0 && s.print_newline then [10] else []) ++ [b],
     { s with depth := s.depth + 1,
              print_newline := if s.depth == 0 then true else s.print_newline })
  else if b == 125 || b == 93 then
    ([b], { s with depth := s.depth - 1 })
  else
    ([b], { s with in_string := b == 34 })

/-- Run `minimize_stream` from state `s` over the input bytes, returning
all written bytes and the final state. -/
def minRun : MinState → List Nat → List Nat × MinState
  | s, [] => ([], s)
  | s, b :: bs =>
    ((minStep s b).1 ++ (minRun (minStep s b).2 bs).1,
     (minRun (minStep s b).2 bs).2)

/-- The byte transform performed by `minimize_stream` on a complete
in-memory input. -/
def minimize_stream (xs : List Nat) : List Nat :=
  (minRun minInit xs).1

/-- A byte starting a UTF-8 continuation position (0x80..0xBF). -/
def isCont (b : Nat) : Bool := 128 ≤ b && b ≤ 191

/-- Whether the list is the encoding of a single Unicode scalar value,
following the same table as Rust's `core::str` validation (RFC 3629:
no overlongs, no surrogates, max U+10FFFF). -/
def utf8CharB : List Nat → Bool
  | [b] => b ≤ 127
  | [b, c] => 194 ≤ b && b ≤ 223 && isCont c
  | [b, c, d] =>
      isCont d &&
      ((b == 224 && (160 ≤ c && c ≤ 191)) ||
       ((225 ≤ b && b ≤ 236) && isCont c) ||
       (b == 237 && (128 ≤ c && c ≤ 159)) ||
       ((238 ≤ b && b ≤ 239) && isCont c))
  | [b, c, d, e] =>
      isCont d && isCont e &&
      ((b == 240 && (144 ≤ c && c ≤ 191)) ||
       ((241 ≤ b && b ≤ 243) && isCont c) ||
       (b == 244 && (128 ≤ c && c ≤ 143)))
  | _ => false

/-- A byte list is valid UTF-8 when it splits into valid scalar encodings. -/
def ValidUtf8 (xs : List Nat) : Prop :=
  ∃ cs : List (List Nat), (∀ c ∈ cs, utf8CharB c = true) ∧ xs = cs.flatten

/-- States of the byte-at-a-time UTF-8 validation automaton (the same
table `String::from_utf8` checks): how many continuation bytes remain and
the admissible range of the next one. -/
inductive Utf8State where
  | ok : Utf8State
  | one : Utf8State
  | two : Utf8State
  | three : Utf8State
  | twoLo : Utf8State
  | twoHi : Utf8State
  | threeLo : Utf8State
  | threeHi : Utf8State
  | bad : Utf8State
deriving Repr, DecidableEq

/-- One byte of UTF-8 validation (RFC 3629 table: E0 requires A0..BF next,
ED requires 80..9F, F0 requires 90..BF, F4 requires 80..8F). -/
def utf8Step (st : Utf8State) (b : Nat) : Utf8State :=
  match st with
  | .ok =>
    if b ≤ 127 then .ok
    else if 194 ≤ b && b ≤ 223 then .one
    else if b == 224 then .twoLo
    else if (225 ≤ b && b ≤ 236) || (238 ≤ b && b ≤ 239) then .two
    else if b == 237 then .twoHi
    else if b == 240 then .threeLo
    else if 241 ≤ b && b ≤ 243 then .three
    else if b == 244 then .threeHi
    else .bad
  | .one => if isCont b then .ok else .bad
  | .two => if isCont b then .one else .bad
  | .three => if isCont b then .two else .bad
  | .twoLo => if 160 ≤ b && b ≤ 191 then .one else .bad
  | .twoHi => if 128 ≤ b && b ≤ 159 then .one else .bad
  | .threeLo => if 144 ≤ b && b ≤ 191 then .two else .bad
  | .threeHi => if 128 ≤ b && b ≤ 143 then .two else .bad
  | .bad => .bad

/-- Run the UTF-8 validation automaton over a byte list. -/
def utf8Run : Utf8State → List Nat → Utf8State
  | st, [] => st
  | st, b :: rest => utf8Run (utf8Step st b) rest

/-- Executable UTF-8 validity check, modelling the validation performed by
`String::from_utf8`. -/
def validUtf8B (l : List Nat) : Bool := utf8Run Utf8State.ok l == Utf8State.ok

/-- The convenience wrapper `pretty_print` (src/jsonxf.rs lines 136-148):
run the stream transform on an in-memory vector, then convert through
`String::from_utf8`.  With an in-memory source and sink the stream cannot
raise an I/O error, so the only modelled failure is the UTF-8 check. -/
def pretty_print (xs indent : List Nat) : Except String (List Nat) :=
  if validUtf8B (pretty_print_stream xs indent) then
    Except.ok (pretty_print_stream xs indent)
  else
    Except.error "invalid utf-8 sequence"

/-- The convenience wrapper `minimize` (src/jsonxf.rs lines 233-245). -/
def minimize (xs : List Nat) : Except String (List Nat) :=
  if validUtf8B (minimize_stream xs) then
    Except.ok (minimize_stream xs)
  else
    Except.error "invalid utf-8 sequence"

/-- Every byte of the list is insignificant whitespace. -/
def AllWs (l : List Nat) : Prop := ∀ b ∈ l, isWsByte b = true

/-- One insertion of a run of whitespace bytes at a position of the input
where the scanner is outside a string literal. -/
def InsStep (a c : List Nat) : Prop :=
  ∃ u v w, AllWs w ∧ a = u ++ v ∧ c = u ++ w ++ v ∧
    (minRun minInit u).2.in_string = false

theorem minRun_append (s : MinState) (xs ys : List Nat) :
    minRun s (xs ++ ys) =
      ((minRun s xs).1 ++ (minRun (minRun s xs).2 ys).1,
       (minRun (minRun s xs).2 ys).2) := by
  induction xs generalizing s with
  | nil => simp [minRun]
  | cons b bs ih => simp [minRun, ih]

theorem ppRun_append (indent : List Nat) (s : PPState) (xs ys : List Nat) :
    ppRun indent s (xs ++ ys) =
      ((ppRun indent s xs).1 ++ (ppRun indent (ppRun indent s xs).2 ys).1,
       (ppRun indent (ppRun indent s xs).2 ys).2) := by
  induction xs generalizing s with
  | nil => simp [ppRun]
  | cons b bs ih => simp [ppRun, ih]

theorem minStep_ws (s : MinState) (b : Nat) (hs : s.in_string = false)
    (hb : isWsByte b = true) : minStep s b = ([], s) := by
  simp [minStep, hs, hb]

theorem minRun_ws (s : MinState) (ys : List Nat) (hs : s.in_string = false)
    (h : ∀ b ∈ ys, isWsByte b = true) : minRun s ys = ([], s) := by
  induction ys with
  | nil => simp [minRun]
  | cons b bs ih =>
    have hb : isWsByte b = true := h b (List.mem_cons_self b bs)
    simp [minRun, minStep_ws s b hs hb]
    exact ih fun c hc => h c (List.mem_cons_of_mem b hc)

theorem minRun_chunk (s : MinState) (b : Nat) :
    minRun s (minStep s b).1 = minStep s b := by
  by_cases h1 : s.in_string = true
  · simp [minStep, minRun, h1]
  · rw [Bool.not_eq_true] at h1
    by_cases hws : isWsByte b = true
    · simp [minStep, minRun, h1, hws]
    · rw [Bool.not_eq_true] at hws
      by_cases h2 : (b == 123 || b == 91) = true
      · by_cases h3 : (s.depth == 0 && s.print_newline) = true
        · have hq : (b == 34) = false := by
            rcases Bool.or_eq_true_iff.mp h2 with h | h <;>
              simp_all [Nat.beq_eq_true_eq]
          have hws' : ((¬b = 32 ∧ ¬b = 9) ∧ ¬b = 10) ∧ ¬b = 13 := by
            simpa [isWsByte] using hws
          simp [minStep, minRun, h1, h2, h3, hq, isWsByte,
            hws'.1.1.1, hws'.1.1.2, hws'.1.2, hws'.2]
        · rw [Bool.not_eq_true] at h3
          simp [minStep, minRun, h1, hws, h2, h3]
      · rw [Bool.not_eq_true] at h2
        by_cases h4 : (b == 125 || b == 93) = true
        · simp [minStep, minRun, h1, hws, h2, h4]
        · rw [Bool.not_eq_true] at h4
          simp [minStep, minRun, h1, hws, h2, h4]

theorem minRun_rescan (s : MinState) (xs : List Nat) :
    minRun s (minRun s xs).1 = minRun s xs := by
  induction xs generalizing s with
  | nil => simp [minRun]
  | cons b bs ih =>
    have h := minRun_append s (minStep s b).1 (minRun (minStep s b).2 bs).1
    simp only [minRun]
    rw [h, minRun_chunk, ih]

/-- C3: `minimize` is idempotent: minimizing the output of `minimize`
reproduces it byte for byte, for every input. -/
theorem minimize_stream_idempotent (xs : List Nat) :
    minimize_stream (minimize_stream xs) = minimize_stream xs :=
  congrArg Prod.fst (minRun_rescan minInit xs)

theorem allWs_indentRep (ind : List Nat) (d : Int) (h : AllWs ind) :
    AllWs (indentRep ind d) := by
  intro b hb
  rw [indentRep, List.mem_flatten] at hb
  obtain ⟨l, hl, hbl⟩ := hb
  rw [List.eq_of_mem_replicate hl] at hbl
  exact h b hbl

theorem minRun_single (m : MinState) (b : Nat) :
    minRun m [b] = minStep m b := by
  simp [minRun]

theorem minRun_pad (m : MinState) (b : Nat) (u v : List Nat)
    (hm : m.in_string = false) (hu : AllWs u) (hv : AllWs v)
    (hkeep : v = [] ∨ (minStep m b).2.in_string = false) :
    minRun m (u ++ b :: v) = minStep m b := by
  rw [minRun_append, minRun_ws m u hm hu]
  rcases hkeep with h | h
  · subst h
    simp [minRun]
  · simp only [minRun]
    rw [minRun_ws _ v h hv]
    simp

theorem allWs_nil : AllWs [] := by
  intro c hc
  cases hc

theorem allWs_cons10 (l : List Nat) (h : AllWs l) : AllWs (10 :: l) := by
  intro c hc
  rcases List.mem_cons.mp hc with h' | h'
  · subst h'
    rfl
  · exact h c h'

theorem step_sim (indent : List Nat) (hind : AllWs indent)
    (p : PPState) (m : MinState) (b : Nat)
    (hs : p.in_string = m.in_string) (hbs : p.in_backslash = m.in_backslash)
    (hd : p.depth = m.depth) (hbuf : AllWs p.whitespace_buffer) :
    minRun m (ppStep indent p b).1 = minStep m b ∧
      (ppStep indent p b).2.in_string = (minStep m b).2.in_string ∧
      (ppStep indent p b).2.in_backslash = (minStep m b).2.in_backslash ∧
      (ppStep indent p b).2.depth = (minStep m b).2.depth ∧
      AllWs (ppStep indent p b).2.whitespace_buffer := by
  by_cases h1 : m.in_string = true
  · -- inside a string: both machines copy the byte verbatim
    have hps : p.in_string = true := by rw [hs, h1]
    constructor
    · have hsh : (ppStep indent p b).1 = [b] := by simp [ppStep, hps]
      rw [hsh]
      exact minRun_single m b
    · by_cases h2 : m.in_backslash = true
      · have hpb : p.in_backslash = true := by rw [hbs, h2]
        refine ⟨?_, ?_, ?_, ?_⟩ <;>
          simp [ppStep, minStep, hps, h1, hpb, h2, hs, hbs, hd, hbuf]
      · rw [Bool.not_eq_true] at h2
        have hpb : p.in_backslash = false := by rw [hbs, h2]
        by_cases h3 : (b == 34) = true
        · refine ⟨?_, ?_, ?_, ?_⟩ <;>
            simp [ppStep, minStep, hps, h1, hpb, h2, h3, hs, hbs, hd, hbuf]
        · rw [Bool.not_eq_true] at h3
          by_cases h4 : (b == 92) = true
          · refine ⟨?_, ?_, ?_, ?_⟩ <;>
              simp [ppStep, minStep, hps, h1, hpb, h2, h3, h4, hs, hbs, hd, hbuf]
          · rw [Bool.not_eq_true] at h4
            refine ⟨?_, ?_, ?_, ?_⟩ <;>
              simp [ppStep, minStep, hps, h1, hpb, h2, h3, h4, hs, hbs, hd, hbuf]
  · rw [Bool.not_eq_true] at h1
    have hps : p.in_string = false := by rw [hs, h1]
    by_cases hws : isWsByte b = true
    · -- whitespace outside a string: suppressed by both machines
      constructor
      · simp [ppStep, minStep, hps, h1, hws, minRun]
      · refine ⟨?_, ?_, ?_, ?_⟩ <;>
          simp [ppStep, minStep, hps, h1, hws, hs, hbs, hd, hbuf]
    · rw [Bool.not_eq_true] at hws
      by_cases h2 : (b == 123 || b == 91) = true
      · -- structural open
        constructor
        · have hsh : (ppStep indent p b).1 = [b] := by
            simp [ppStep, hps, hws, h2]
          rw [hsh]
          exact minRun_single m b
        · refine ⟨?_, ?_, ?_, ?_⟩
          · simp [ppStep, minStep, hps, h1, hws, h2, hs]
          · simp [ppStep, minStep, hps, h1, hws, h2, hbs]
          · simp [ppStep, minStep, hps, h1, hws, h2, hd]
          · have hsh : (ppStep indent p b).2.whitespace_buffer =
                10 :: indentRep indent (p.depth + 1) := by
              simp [ppStep, hps, hws, h2]
            rw [hsh]
            exact allWs_cons10 _ (allWs_indentRep indent _ hind)
      · rw [Bool.not_eq_true] at h2
        by_cases h3 : (b == 125 || b == 93) = true
        · -- structural close
          constructor
          · have hsh : (ppStep indent p b).1 =
                (if p.current_structure_is_empty then ([] : List Nat)
                 else 10 :: indentRep indent (p.depth - 1)) ++
                  b :: (if p.depth - 1 == 0 then [10] else []) := by
              by_cases hce : p.current_structure_is_empty = true <;>
                simp [ppStep, hps, hws, h2, h3, hce]
            rw [hsh]
            apply minRun_pad m b _ _ h1
            · by_cases hce : p.current_structure_is_empty = true
              · rw [if_pos hce]
                exact allWs_nil
              · rw [if_neg hce]
                exact allWs_cons10 _ (allWs_indentRep indent _ hind)
            · by_cases hd0 : (p.depth - 1 == 0) = true
              · rw [if_pos hd0]
                exact allWs_cons10 [] allWs_nil
              · rw [if_neg hd0]
                exact allWs_nil
            · right
              simp [minStep, h1, hws, h2, h3]
          · refine ⟨?_, ?_, ?_, ?_⟩
            · simp [ppStep, minStep, hps, h1, hws, h2, h3, hs]
            · simp [ppStep, minStep, hps, h1, hws, h2, h3, hbs]
            · simp [ppStep, minStep, hps, h1, hws, h2, h3, hd]
            · have hsh : (ppStep indent p b).2.whitespace_buffer =
                  p.whitespace_buffer := by
                simp [ppStep, hps, hws, h2, h3]
              rw [hsh]
              exact hbuf
        · rw [Bool.not_eq_true] at h3
          by_cases h4 : (b == 44) = true
          · -- comma
            have hb : b = 44 := by simpa using h4
            subst hb
            constructor
            · have hsh : (ppStep indent p 44).1 =
                  [] ++ 44 :: (10 :: indentRep indent p.depth) := by
                simp [ppStep, hps, isWsByte]
              rw [hsh]
              apply minRun_pad m 44 _ _ h1 allWs_nil
                (allWs_cons10 _ (allWs_indentRep indent _ hind))
              right
              simp [minStep, h1, isWsByte]
            · refine ⟨?_, ?_, ?_, ?_⟩
              · simp [ppStep, minStep, hps, h1, isWsByte]
              · simp [ppStep, minStep, hps, h1, isWsByte, hbs]
              · simp [ppStep, minStep, hps, h1, isWsByte, hd]
              · have hsh : (ppStep indent p 44).2.whitespace_buffer =
                    p.whitespace_buffer := by
                  simp [ppStep, hps, isWsByte]
                rw [hsh]
                exact hbuf
          · rw [Bool.not_eq_true] at h4
            by_cases h5 : (b == 58) = true
            · -- colon
              have hb : b = 58 := by simpa using h5
              subst hb
              constructor
              · have hsh : (ppStep indent p 58).1 = [] ++ 58 :: [32] := by
                  simp [ppStep, hps, isWsByte]
                rw [hsh]
                apply minRun_pad m 58 _ _ h1 allWs_nil
                · intro c hc
                  simp at hc
                  subst hc
                  rfl
                · right
                  simp [minStep, h1, isWsByte]
              · refine ⟨?_, ?_, ?_, ?_⟩
                · simp [ppStep, minStep, hps, h1, isWsByte]
                · simp [ppStep, minStep, hps, h1, isWsByte, hbs]
                · simp [ppStep, minStep, hps, h1, isWsByte, hd]
                · have hsh : (ppStep indent p 58).2.whitespace_buffer =
                      p.whitespace_buffer := by
                    simp [ppStep, hps, isWsByte]
                  rw [hsh]
                  exact hbuf
            · rw [Bool.not_eq_true] at h5
              -- catch-all byte (string opener or scalar content)
              constructor
              · have hsh : (ppStep indent p b).1 =
                    (if p.current_structure_is_empty then p.whitespace_buffer
                     else []) ++ b :: [] := by
                  simp [ppStep, hps, hws, h2, h3, h4, h5]
                rw [hsh]
                apply minRun_pad m b _ _ h1 ?_ allWs_nil (Or.inl rfl)
                by_cases hce : p.current_structure_is_empty = true
                · rw [if_pos hce]
                  exact hbuf
                · rw [if_neg hce]
                  exact allWs_nil
              · refine ⟨?_, ?_, ?_, ?_⟩
                · simp [ppStep, minStep, hps, h1, hws, h2, h3, h4, h5]
                · simp [ppStep, minStep, hps, h1, hws, h2, h3, h4, h5, hbs]
                · simp [ppStep, minStep, hps, h1, hws, h2, h3, h4, h5, hd]
                · have hsh : (ppStep indent p b).2.whitespace_buffer =
                      p.whitespace_buffer := by
                    simp [ppStep, hps, hws, h2, h3, h4, h5]
                  rw [hsh]
                  exact hbuf

theorem run_sim (indent : List Nat) (hind : AllWs indent) :
    ∀ (xs : List Nat) (p : PPState) (m : MinState),
      p.in_string = m.in_string → p.in_backslash = m.in_backslash →
      p.depth = m.depth → AllWs p.whitespace_buffer →
      minRun m (ppRun indent p xs).1 = minRun m xs := by
  intro xs
  induction xs with
  | nil =>
    intro p m _ _ _ _
    simp [ppRun, minRun]
  | cons b bs ih =>
    intro p m hs hbs hd hbuf
    obtain ⟨h1, h2, h3, h4, h5⟩ := step_sim indent hind p m b hs hbs hd hbuf
    simp only [ppRun, minRun]
    rw [minRun_append, h1, ih (ppStep indent p b).2 (minStep m b).2 h2 h3 h4 h5]

/-- C1 (amended): for every input and every indent string made only of
whitespace bytes, minimizing the pretty-printed output equals minimizing
the input directly.  This holds for all inputs, well-formed or not. -/
theorem minimize_pretty_print_roundtrip (xs indent : List Nat) (hind : AllWs indent) :
    minimize_stream (pretty_print_stream xs indent) = minimize_stream xs :=
  congrArg Prod.fst (run_sim indent hind xs ppInit minInit rfl rfl rfl allWs_nil)

/-- Witness for the C1 theorem at the well-formed input "[1,2]" with the
two-space indent. -/
theorem minimize_pretty_print_roundtrip_witness :
    AllWs [32, 32] ∧
      minimize_stream (pretty_print_stream [91, 49, 44, 50, 93] [32, 32]) =
        minimize_stream [91, 49, 44, 50, 93] := by
  have h : AllWs [32, 32] := by
    intro b hb
    fin_cases hb <;> rfl
  exact ⟨h, minimize_pretty_print_roundtrip [91, 49, 44, 50, 93] [32, 32] h⟩

/-- C1 counterexample: for the well-formed JSON input "[1,2]" and the
indent "x" (bytes [120]; the spec allows an arbitrary byte sequence as
indent), minimizing the pretty-printed output does not equal minimizing
the input, so the round-trip claim fails for non-whitespace indents. -/
theorem pretty_print_nonws_indent_breaks_roundtrip :
    minimize_stream (pretty_print_stream [91, 49, 44, 50, 93] [120]) ≠
      minimize_stream [91, 49, 44, 50, 93] := by decide

theorem minRun_cons_snd (m : MinState) (b : Nat) (u : List Nat) :
    (minRun m (b :: u)).2 = (minRun (minStep m b).2 u).2 := by
  simp [minRun]

theorem shape_single_step
    (bs : List Nat) (m : MinState) (b : Nat) (u : List Nat) (w : Nat) (v : List Nat)
    (ih : ∀ (m : MinState) (u : List Nat) (w : Nat) (v : List Nat),
      (minRun m bs).1 = u ++ w :: v → isWsByte w = true →
      (minRun m u).2.in_string = false →
      w = 10 ∧ (minRun m u).2.depth = 0 ∧ ∃ rest, v = 123 :: rest ∨ v = 91 :: rest)
    (hbw : isWsByte b = false)
    (h : [b] ++ (minRun (minStep m b).2 bs).1 = u ++ w :: v)
    (hw : isWsByte w = true)
    (hu : (minRun m u).2.in_string = false) :
    w = 10 ∧ (minRun m u).2.depth = 0 ∧ ∃ rest, v = 123 :: rest ∨ v = 91 :: rest := by
  cases u with
  | nil =>
    simp only [List.cons_append, List.nil_append, List.cons.injEq] at h
    obtain ⟨hbw', _⟩ := h
    rw [← hbw'] at hw
    rw [hbw] at hw
    simp at hw
  | cons x u' =>
    simp only [List.cons_append, List.nil_append, List.cons.injEq] at h
    obtain ⟨hbx, hrest⟩ := h
    subst hbx
    have e1 := minRun_cons_snd m b u'
    rw [e1] at hu ⊢
    exact ih (minStep m b).2 u' w v hrest hw hu

theorem minRun_insignificant_ws :
    ∀ (xs : List Nat) (m : MinState) (u : List Nat) (w : Nat) (v : List Nat),
      (minRun m xs).1 = u ++ w :: v → isWsByte w = true →
      (minRun m u).2.in_string = false →
      w = 10 ∧ (minRun m u).2.depth = 0 ∧
        ∃ rest, v = 123 :: rest ∨ v = 91 :: rest := by
  intro xs
  induction xs with
  | nil =>
    intro m u w v h _ _
    simp [minRun] at h
  | cons b bs ih =>
    intro m u w v h hw hu
    simp only [minRun] at h
    by_cases h1 : m.in_string = true
    · -- chunk [b], emitted as string content
      have hc : (minStep m b).1 = [b] := by simp [minStep, h1]
      rw [hc] at h
      cases u with
      | nil =>
        have hm : (minRun m ([] : List Nat)).2 = m := rfl
        rw [hm] at hu
        rw [hu] at h1
        simp at h1
      | cons x u' =>
        simp only [List.cons_append, List.nil_append, List.cons.injEq] at h
        obtain ⟨hbx, hrest⟩ := h
        subst hbx
        have e1 := minRun_cons_snd m b u'
        rw [e1] at hu ⊢
        exact ih (minStep m b).2 u' w v hrest hw hu
    · rw [Bool.not_eq_true] at h1
      by_cases hws : isWsByte b = true
      · -- chunk [], state unchanged
        have hc : minStep m b = ([], m) := minStep_ws m b h1 hws
        rw [hc] at h
        have h' : (minRun m bs).1 = u ++ w :: v := by simpa using h
        exact ih m u w v h' hw hu
      · rw [Bool.not_eq_true] at hws
        by_cases h2 : (b == 123 || b == 91) = true
        · by_cases h3 : (m.depth == 0 && m.print_newline) = true
          · -- chunk [10, b]: the single inserted separator
            have hc : (minStep m b).1 = [10, b] := by
              simp [minStep, h1, hws, h2, h3]
            rw [hc] at h
            cases u with
            | nil =>
              simp only [List.cons_append, List.nil_append, List.cons.injEq] at h
              obtain ⟨hw10, hv⟩ := h
              subst hw10
              refine ⟨rfl, ?_, ?_⟩
              · have hm : (minRun m ([] : List Nat)).2 = m := rfl
                rw [hm]
                exact beq_iff_eq.mp ((Bool.and_eq_true _ _).mp h3).1
              · rcases Bool.or_eq_true_iff.mp h2 with hb | hb
                · exact ⟨(minRun (minStep m b).2 bs).1,
                    Or.inl (by rw [← hv, beq_iff_eq.mp hb])⟩
                · exact ⟨(minRun (minStep m b).2 bs).1,
                    Or.inr (by rw [← hv, beq_iff_eq.mp hb])⟩
            | cons x u' =>
              simp only [List.cons_append, List.nil_append, List.cons.injEq] at h
              obtain ⟨h10x, h'⟩ := h
              cases u' with
              | nil =>
                simp only [List.cons_append, List.nil_append, List.cons.injEq] at h'
                obtain ⟨hbw', _⟩ := h'
                rw [← hbw'] at hw
                rw [hws] at hw
                simp at hw
              | cons y u'' =>
                simp only [List.cons_append, List.nil_append, List.cons.injEq] at h'
                obtain ⟨hby, h''⟩ := h'
                subst h10x
                subst hby
                have e1 : (minRun m (10 :: b :: u'')).2 =
                    (minRun (minStep m b).2 u'').2 := by
                  rw [minRun_cons_snd, minStep_ws m 10 h1 rfl]
                  exact minRun_cons_snd m b u''
                rw [e1] at hu ⊢
                exact ih (minStep m b).2 u'' w v h'' hw hu
          · -- open without a separator: chunk [b]
            rw [Bool.not_eq_true] at h3
            have hc : (minStep m b).1 = [b] := by
              simp [minStep, h1, hws, h2, h3]
            rw [hc] at h
            exact shape_single_step bs m b u w v ih hws h hw hu
        · rw [Bool.not_eq_true] at h2
          by_cases h3 : (b == 125 || b == 93) = true
          · -- close: chunk [b]
            have hc : (minStep m b).1 = [b] := by
              simp [minStep, h1, hws, h2, h3]
            rw [hc] at h
            exact shape_single_step bs m b u w v ih hws h hw hu
          · -- catch-all: chunk [b]
            rw [Bool.not_eq_true] at h3
            have hc : (minStep m b).1 = [b] := by
              simp [minStep, h1, hws, h2, h3]
            rw [hc] at h
            exact shape_single_step bs m b u w v ih hws h hw hu

/-- C2 (amended): every whitespace byte of the minimize output that lies
outside a quoted string (as classified by rescanning the output prefix)
is a newline emitted at depth 0 and immediately followed by a top-level
open byte, so separators are single and the output never ends with an
insignificant-whitespace byte.  A trailing newline can still occur as
string content of an unterminated string literal. -/
theorem minimize_no_insignificant_ws (xs u : List Nat) (w : Nat) (v : List Nat)
    (h : minimize_stream xs = u ++ w :: v) (hw : isWsByte w = true)
    (hu : (minRun minInit u).2.in_string = false) :
    w = 10 ∧ (minRun minInit u).2.depth = 0 ∧
      ∃ rest, v = 123 :: rest ∨ v = 91 :: rest :=
  minRun_insignificant_ws xs minInit u w v h hw hu

/-- Witness for the C2 theorem: two concatenated empty objects minimize to
them separated by one newline, and that newline satisfies the shape. -/
theorem minimize_no_insignificant_ws_witness :
    (minimize_stream [123, 125, 32, 123, 125] = [123, 125] ++ 10 :: [123, 125] ∧
       isWsByte 10 = true ∧ (minRun minInit [123, 125]).2.in_string = false) ∧
      (10 = 10 ∧ (minRun minInit [123, 125]).2.depth = 0 ∧
        ∃ rest, [123, 125] = 123 :: rest ∨ [123, 125] = 91 :: rest) :=
  ⟨⟨by decide, by decide, by decide⟩,
   minimize_no_insignificant_ws [123, 125, 32, 123, 125] [123, 125] 10 [123, 125]
     (by decide) (by decide) (by decide)⟩

/-- C2 counterexample: the input is a double quote followed by a newline
(an unterminated string literal); minimize copies both bytes, so the
output does end with a newline byte, contradicting the unqualified
trailing-newline part of the claim. -/
theorem minimize_trailing_newline_unterminated_string :
    minimize_stream [34, 10] = [34, 10] ∧
      (minimize_stream [34, 10]).getLast? = some 10 := by decide

/-- C4: a byte scanned in string mode is emitted verbatim by both
machines, leaves the depth counter unchanged, and when it follows an
unescaped backslash the string does not terminate, even for an escaped
quote byte. -/
theorem string_bytes_preserved (indent : List Nat) (p : PPState) (m : MinState)
    (b : Nat) (hp : p.in_string = true) (hm : m.in_string = true) :
    (ppStep indent p b).1 = [b] ∧ (ppStep indent p b).2.depth = p.depth ∧
      (minStep m b).1 = [b] ∧ (minStep m b).2.depth = m.depth ∧
      (p.in_backslash = true → (ppStep indent p b).2.in_string = true) ∧
      (m.in_backslash = true → (minStep m b).2.in_string = true) := by
  refine ⟨?_, ?_, ?_, ?_, ?_, ?_⟩
  · simp [ppStep, hp]
  · by_cases h2 : p.in_backslash = true <;>
      by_cases h3 : (b == 34) = true <;>
        by_cases h4 : (b == 92) = true <;>
          simp [ppStep, hp, h2, h3, h4]
  · simp [minStep, hm]
  · by_cases h2 : m.in_backslash = true <;>
      by_cases h3 : (b == 34) = true <;>
        by_cases h4 : (b == 92) = true <;>
          simp [minStep, hm, h2, h3, h4]
  · intro hb
    simp [ppStep, hp, hb]
  · intro hb
    simp [minStep, hm, hb]

/-- Witness for the C4 theorem: an escaped quote inside a string, at
depth 1, in both machines. -/
theorem string_bytes_preserved_witness :
    (ppStep [] ⟨1, true, true, [], false⟩ 34).1 = [34] ∧
      (ppStep [] ⟨1, true, true, [], false⟩ 34).2.depth =
        (⟨1, true, true, [], false⟩ : PPState).depth ∧
      (minStep ⟨true, true, 1, false⟩ 34).1 = [34] ∧
      (minStep ⟨true, true, 1, false⟩ 34).2.depth =
        (⟨true, true, 1, false⟩ : MinState).depth ∧
      ((⟨1, true, true, [], false⟩ : PPState).in_backslash = true →
        (ppStep [] ⟨1, true, true, [], false⟩ 34).2.in_string = true) ∧
      ((⟨true, true, 1, false⟩ : MinState).in_backslash = true →
        (minStep ⟨true, true, 1, false⟩ 34).2.in_string = true) :=
  string_bytes_preserved [] ⟨1, true, true, [], false⟩ ⟨true, true, 1, false⟩ 34 rfl rfl

theorem insStep_minimize (a c : List Nat) (h : InsStep a c) :
    minimize_stream c = minimize_stream a := by
  obtain ⟨u, v, w, hws, ha, hc, hu⟩ := h
  subst ha
  subst hc
  show (minRun minInit ((u ++ w) ++ v)).1 = (minRun minInit (u ++ v)).1
  have h1 : minRun minInit (u ++ w) = minRun minInit u := by
    rw [minRun_append, minRun_ws _ w hu hws]
    simp
  rw [minRun_append, h1, ← minRun_append]

/-- C5: obtaining an input from another by repeatedly inserting runs of
insignificant whitespace at outside-string positions never changes the
minimized output. -/
theorem ws_insertion_invariance (a c : List Nat)
    (h : Relation.ReflTransGen InsStep a c) :
    minimize_stream c = minimize_stream a := by
  induction h with
  | refl => rfl
  | tail _ hbc ih => rw [insStep_minimize _ _ hbc, ih]

/-- Witness for the C5 theorem: inserting one space inside the empty
object does not change the minimized output. -/
theorem ws_insertion_invariance_witness :
    minimize_stream [123, 32, 125] = minimize_stream [123, 125] :=
  ws_insertion_invariance [123, 125] [123, 32, 125]
    (Relation.ReflTransGen.single
      ⟨[123], [125], [32], by intro c hc; fin_cases hc; rfl, rfl, rfl, by decide⟩)

theorem minRun_passthrough (xs : List Nat) :
    ∀ m : MinState, m.in_string = false →
      (∀ b ∈ xs, b ≠ 123 ∧ b ≠ 91 ∧ b ≠ 34) →
      (minRun m xs).1 = xs.filter (fun b => !isWsByte b) := by
  induction xs with
  | nil =>
    intro m _ _
    simp [minRun]
  | cons b bs ih =>
    intro m hm h
    obtain ⟨hb1, hb2, hb3⟩ := h b (List.mem_cons_self b bs)
    have hrest := fun c hc => h c (List.mem_cons_of_mem b hc)
    have h2 : (b == 123 || b == 91) = false := by
      simp [hb1, hb2]
    have h34 : (b == 34) = false := by
      simp [hb3]
    by_cases hws : isWsByte b = true
    · simp only [minRun]
      rw [minStep_ws m b hm hws, List.filter_cons]
      simp only [hws, Bool.not_true, List.nil_append]
      exact ih m hm hrest
    · rw [Bool.not_eq_true] at hws
      by_cases h3 : (b == 125 || b == 93) = true
      · simp only [minRun]
        have hc : minStep m b = ([b], { m with depth := m.depth - 1 }) := by
          simp [minStep, hm, hws, h2, h3]
        rw [hc, List.filter_cons]
        simp only [hws, Bool.not_false, if_true]
        have := ih { m with depth := m.depth - 1 } hm hrest
        simp [this]
      · rw [Bool.not_eq_true] at h3
        simp only [minRun]
        have hc : minStep m b = ([b], { m with in_string := b == 34 }) := by
          simp [minStep, hm, hws, h2, h3]
        rw [hc, List.filter_cons]
        simp only [hws, Bool.not_false, if_true]
        have hin : ({ m with in_string := b == 34 } : MinState).in_string = false := by
          simp [h34]
        have := ih { m with in_string := b == 34 } hin hrest
        simp [this]

/-- C6 (amended): for input containing no structural open byte and no
quote byte, minimize is a byte-for-byte passthrough of the non-whitespace
bytes, with no separating newline inserted; in particular
minimize("1 2 3") = "123" (see the witness). -/
theorem minimize_scalar_passthrough (xs : List Nat)
    (h : ∀ b ∈ xs, b ≠ 123 ∧ b ≠ 91 ∧ b ≠ 34) :
    minimize_stream xs = xs.filter (fun b => !isWsByte b) :=
  minRun_passthrough xs minInit rfl h

/-- Witness for the C6 theorem: the exact edge case of the spec,
minimize("1 2 3") = "123". -/
theorem minimize_scalar_passthrough_witness :
    (∀ b ∈ ([49, 32, 50, 32, 51] : List Nat), b ≠ 123 ∧ b ≠ 91 ∧ b ≠ 34) ∧
      minimize_stream [49, 32, 50, 32, 51] = [49, 50, 51] := by
  have h : ∀ b ∈ ([49, 32, 50, 32, 51] : List Nat), b ≠ 123 ∧ b ≠ 91 ∧ b ≠ 34 := by
    decide
  refine ⟨h, ?_⟩
  rw [minimize_scalar_passthrough [49, 32, 50, 32, 51] h]
  decide

/-- C6 counterexample: the input is the single string scalar with bytes
34 97 32 98 34 (a quoted "a b"); it contains no structural open byte, yet
minimize keeps the space inside the quoted string, so the output is not
the subsequence of non-whitespace input bytes. -/
theorem minimize_not_ws_filter_on_string_scalar :
    minimize_stream [34, 97, 32, 98, 34] ≠
      List.filter (fun b => !isWsByte b) [34, 97, 32, 98, 34] := by decide

/-- C7: pretty-printing the empty object emits it compactly with a single
trailing newline once depth returns to 0, and likewise for the empty
array, for every indent string; no interior whitespace is inserted. -/
theorem pretty_print_empty_structures (indent : List Nat) :
    pretty_print_stream [123, 125] indent = [123, 125, 10] ∧
      pretty_print_stream [91, 93] indent = [91, 93, 10] := by
  constructor <;>
    simp [pretty_print_stream, ppRun, ppStep, ppInit, isWsByte]

/-- C8: pretty-printing the nested document with two-space indent yields
the exact expected rendering; moreover, outside a string every comma
emits the comma, a newline and depth copies of the indent, and every
colon emits colon-space regardless of depth. -/
theorem pretty_print_nested_example :
    pretty_print_stream
        [123, 34, 97, 34, 58, 49, 44, 34, 98, 34, 58, 91, 49, 44, 50, 93, 125]
        [32, 32] =
      [123, 10, 32, 32, 34, 97, 34, 58, 32, 49, 44, 10, 32, 32, 34, 98, 34, 58,
       32, 91, 10, 32, 32, 32, 32, 49, 44, 10, 32, 32, 32, 32, 50, 10, 32, 32,
       93, 10, 125, 10] ∧
      (∀ (ind : List Nat) (p : PPState), p.in_string = false →
        (ppStep ind p 44).1 = 44 :: 10 :: indentRep ind p.depth) ∧
      (∀ (ind : List Nat) (p : PPState), p.in_string = false →
        (ppStep ind p 58).1 = [58, 32]) := by
  refine ⟨by decide, ?_, ?_⟩ <;>
    · intro ind p hp
      simp [ppStep, hp, isWsByte]

/-- Witness for the C8 theorem: the comma and colon emissions at the
initial state with the two-space indent. -/
theorem pretty_print_nested_example_witness :
    (ppStep [32, 32] ppInit 44).1 = 44 :: 10 :: indentRep [32, 32] ppInit.depth ∧
      (ppStep [32, 32] ppInit 58).1 = [58, 32] :=
  ⟨pretty_print_nested_example.2.1 [32, 32] ppInit rfl,
   pretty_print_nested_example.2.2 [32, 32] ppInit rfl⟩

theorem ppStep_backslash_inv (indent : List Nat) (p : PPState) (b : Nat)
    (h : (!p.in_backslash || p.in_string) = true) :
    (!(ppStep indent p b).2.in_backslash || (ppStep indent p b).2.in_string) = true := by
  unfold ppStep
  split_ifs <;> simp_all

theorem minStep_backslash_inv (m : MinState) (b : Nat)
    (h : (!m.in_backslash || m.in_string) = true) :
    (!(minStep m b).2.in_backslash || (minStep m b).2.in_string) = true := by
  unfold minStep
  split_ifs <;> simp_all

theorem ppRun_backslash_inv (indent xs : List Nat) :
    ∀ p : PPState, (!p.in_backslash || p.in_string) = true →
      (!(ppRun indent p xs).2.in_backslash || (ppRun indent p xs).2.in_string) = true := by
  induction xs with
  | nil =>
    intro p h
    simpa [ppRun] using h
  | cons b bs ih =>
    intro p h
    simp only [ppRun]
    exact ih (ppStep indent p b).2 (ppStep_backslash_inv indent p b h)

theorem minRun_backslash_inv (xs : List Nat) :
    ∀ m : MinState, (!m.in_backslash || m.in_string) = true →
      (!(minRun m xs).2.in_backslash || (minRun m xs).2.in_string) = true := by
  induction xs with
  | nil =>
    intro m h
    simpa [minRun] using h
  | cons b bs ih =>
    intro m h
    simp only [minRun]
    exact ih (minStep m b).2 (minStep_backslash_inv m b h)

/-- C9: scanning any input from the initial state (hence after every step
of any scan, every prefix being itself an input), in_backslash can be
true only when in_string is true, in both machines. -/
theorem in_backslash_only_in_string (indent xs : List Nat) :
    (!(ppRun indent ppInit xs).2.in_backslash ||
        (ppRun indent ppInit xs).2.in_string) = true ∧
      (!(minRun minInit xs).2.in_backslash ||
        (minRun minInit xs).2.in_string) = true :=
  ⟨ppRun_backslash_inv indent xs ppInit rfl,
   minRun_backslash_inv xs minInit rfl⟩

theorem validUtf8_nil : ValidUtf8 [] :=
  ⟨[], by simp, rfl⟩

theorem validUtf8_append (a b : List Nat) (ha : ValidUtf8 a) (hb : ValidUtf8 b) :
    ValidUtf8 (a ++ b) := by
  obtain ⟨cs1, h1, e1⟩ := ha
  obtain ⟨cs2, h2, e2⟩ := hb
  refine ⟨cs1 ++ cs2, ?_, ?_⟩
  · intro c hc
    rcases List.mem_append.mp hc with h | h
    · exact h1 c h
    · exact h2 c h
  · rw [e1, e2, List.flatten_append]

theorem validUtf8_ascii (b : Nat) (h : b ≤ 127) : ValidUtf8 [b] :=
  ⟨[[b]], by simpa [utf8CharB] using h, rfl⟩

theorem validUtf8_allAscii (l : List Nat) (h : ∀ b ∈ l, b ≤ 127) :
    ValidUtf8 l := by
  induction l with
  | nil => exact validUtf8_nil
  | cons b bs ih =>
    have : ([b] ++ bs : List Nat) = b :: bs := rfl
    rw [← this]
    exact validUtf8_append [b] bs
      (validUtf8_ascii b (h b (List.mem_cons_self b bs)))
      (ih fun c hc => h c (List.mem_cons_of_mem b hc))

theorem validUtf8_indentRep (ind : List Nat) (d : Int) (h : ValidUtf8 ind) :
    ValidUtf8 (indentRep ind d) := by
  unfold indentRep
  induction d.toNat with
  | zero => exact validUtf8_nil
  | succ n ih =>
    rw [List.replicate_succ, List.flatten_cons]
    exact validUtf8_append ind _ h ih

theorem utf8Run_append (st : Utf8State) (a c : List Nat) :
    utf8Run st (a ++ c) = utf8Run (utf8Run st a) c := by
  induction a generalizing st with
  | nil => simp [utf8Run]
  | cons x xs ih => simp [utf8Run, ih]

theorem utf8Run_char (c : List Nat) (hc : utf8CharB c = true) :
    utf8Run Utf8State.ok c = Utf8State.ok := by
  match c with
  | [] => simp [utf8CharB] at hc
  | [b] =>
    have hb : b ≤ 127 := by simpa [utf8CharB] using hc
    simp [utf8Run, utf8Step, hb]
  | [b, c2] =>
    have h : (194 ≤ b ∧ b ≤ 223) ∧ 128 ≤ c2 ∧ c2 ≤ 191 := by
      simpa [utf8CharB, isCont] using hc
    obtain ⟨⟨h1, h2⟩, h3, h4⟩ := h
    have hb : ¬b ≤ 127 := by omega
    simp [utf8Run, utf8Step, isCont, hb, h1, h2, h3, h4]
  | [b, c2, d] =>
    have h : (128 ≤ d ∧ d ≤ 191) ∧
        (((b = 224 ∧ 160 ≤ c2 ∧ c2 ≤ 191 ∨
           (225 ≤ b ∧ b ≤ 236) ∧ 128 ≤ c2 ∧ c2 ≤ 191) ∨
          b = 237 ∧ 128 ≤ c2 ∧ c2 ≤ 159) ∨
         (238 ≤ b ∧ b ≤ 239) ∧ 128 ≤ c2 ∧ c2 ≤ 191) := by
      simpa [utf8CharB, isCont] using hc
    obtain ⟨⟨hd1, hd2⟩, hdisj⟩ := h
    rcases hdisj with ((⟨hb, hc1, hc2⟩ | ⟨⟨hb1, hb2⟩, hc1, hc2⟩) |
      ⟨hb, hc1, hc2⟩) | ⟨⟨hb1, hb2⟩, hc1, hc2⟩
    · subst hb
      simp [utf8Run, utf8Step, isCont, hc1, hc2, hd1, hd2]
    · have e1 : ¬b ≤ 127 := by omega
      have e2 : ¬b ≤ 223 := by omega
      have e3 : ¬b = 224 := by omega
      simp [utf8Run, utf8Step, isCont, e1, e2, e3, hb1, hb2, hc1, hc2, hd1, hd2]
    · subst hb
      simp [utf8Run, utf8Step, isCont, hc1, hc2, hd1, hd2]
    · have e1 : ¬b ≤ 127 := by omega
      have e2 : ¬b ≤ 223 := by omega
      have e3 : ¬b = 224 := by omega
      have e4 : ¬b ≤ 236 := by omega
      have e5 : ¬b = 237 := by omega
      simp [utf8Run, utf8Step, isCont, e1, e2, e3, e4, e5,
        hb1, hb2, hc1, hc2, hd1, hd2]
  | [b, c2, d, e] =>
    have h : ((128 ≤ d ∧ d ≤ 191) ∧ 128 ≤ e ∧ e ≤ 191) ∧
        ((b = 240 ∧ 144 ≤ c2 ∧ c2 ≤ 191 ∨
          (241 ≤ b ∧ b ≤ 243) ∧ 128 ≤ c2 ∧ c2 ≤ 191) ∨
         b = 244 ∧ 128 ≤ c2 ∧ c2 ≤ 143) := by
      simpa [utf8CharB, isCont] using hc
    obtain ⟨⟨⟨hd1, hd2⟩, he1, he2⟩, hdisj⟩ := h
    rcases hdisj with (⟨hb, hc1, hc2⟩ | ⟨⟨hb1, hb2⟩, hc1, hc2⟩) | ⟨hb, hc1, hc2⟩
    · subst hb
      simp [utf8Run, utf8Step, isCont, hc1, hc2, hd1, hd2, he1, he2]
    · have e1 : ¬b ≤ 127 := by omega
      have e2 : ¬b ≤ 223 := by omega
      have e3 : ¬b = 224 := by omega
      have e4 : ¬b ≤ 236 := by omega
      have e5 : ¬b = 237 := by omega
      have e6 : ¬b ≤ 239 := by omega
      have e7 : ¬b = 240 := by omega
      simp [utf8Run, utf8Step, isCont, e1, e2, e3, e4, e5, e6, e7,
        hb1, hb2, hc1, hc2, hd1, hd2, he1, he2]
    · subst hb
      simp [utf8Run, utf8Step, isCont, hc1, hc2, hd1, hd2, he1, he2]
  | b :: c2 :: d :: e :: f :: t => simp [utf8CharB] at hc

theorem validUtf8B_char_append (c r : List Nat) (hc : utf8CharB c = true) :
    validUtf8B (c ++ r) = validUtf8B r := by
  unfold validUtf8B
  rw [utf8Run_append, utf8Run_char c hc]

theorem validUtf8B_sound (l : List Nat) (h : ValidUtf8 l) :
    validUtf8B l = true := by
  obtain ⟨cs, hcs, e⟩ := h
  subst e
  induction cs with
  | nil => rfl
  | cons c cs' ih =>
    rw [List.flatten_cons,
      validUtf8B_char_append c cs'.flatten (hcs c (List.mem_cons_self c cs'))]
    exact ih fun x hx => hcs x (List.mem_cons_of_mem c hx)

theorem ppStep_ascii_valid (indent : List Nat) (hind : ValidUtf8 indent)
    (p : PPState) (b : Nat) (hb : b ≤ 127) (hbuf : ValidUtf8 p.whitespace_buffer) :
    ValidUtf8 (ppStep indent p b).1 ∧
      ValidUtf8 (ppStep indent p b).2.whitespace_buffer := by
  by_cases h1 : p.in_string = true
  · constructor
    · have hsh : (ppStep indent p b).1 = [b] := by simp [ppStep, h1]
      rw [hsh]
      exact validUtf8_ascii b hb
    · have hsh : (ppStep indent p b).2.whitespace_buffer = p.whitespace_buffer := by
        by_cases h2 : p.in_backslash = true <;>
          by_cases h3 : (b == 34) = true <;>
            by_cases h4 : (b == 92) = true <;>
              simp [ppStep, h1, h2, h3, h4]
      rw [hsh]
      exact hbuf
  · rw [Bool.not_eq_true] at h1
    by_cases hws : isWsByte b = true
    · constructor
      · have hsh : (ppStep indent p b).1 = [] := by simp [ppStep, h1, hws]
        rw [hsh]
        exact validUtf8_nil
      · have hsh : (ppStep indent p b).2.whitespace_buffer = p.whitespace_buffer := by
          simp [ppStep, h1, hws]
        rw [hsh]
        exact hbuf
    · rw [Bool.not_eq_true] at hws
      by_cases h2 : (b == 123 || b == 91) = true
      · constructor
        · have hsh : (ppStep indent p b).1 = [b] := by simp [ppStep, h1, hws, h2]
          rw [hsh]
          exact validUtf8_ascii b hb
        · have hsh : (ppStep indent p b).2.whitespace_buffer =
              10 :: indentRep indent (p.depth + 1) := by
            simp [ppStep, h1, hws, h2]
          rw [hsh]
          have e : (10 :: indentRep indent (p.depth + 1) : List Nat) =
              [10] ++ indentRep indent (p.depth + 1) := rfl
          rw [e]
          exact validUtf8_append _ _ (validUtf8_ascii 10 (by omega))
            (validUtf8_indentRep indent _ hind)
      · rw [Bool.not_eq_true] at h2
        by_cases h3 : (b == 125 || b == 93) = true
        · constructor
          · have hsh : (ppStep indent p b).1 =
                (if p.current_structure_is_empty = true then [b]
                 else 10 :: (indentRep indent (p.depth - 1) ++ [b])) ++
                  (if (p.depth - 1 == 0) = true then [10] else []) := by
              simp [ppStep, h1, hws, h2, h3]
            rw [hsh]
            apply validUtf8_append
            · by_cases hce : p.current_structure_is_empty = true
              · rw [if_pos hce]
                exact validUtf8_ascii b hb
              · rw [if_neg hce]
                have e : (10 :: (indentRep indent (p.depth - 1) ++ [b]) : List Nat) =
                    [10] ++ (indentRep indent (p.depth - 1) ++ [b]) := rfl
                rw [e]
                exact validUtf8_append _ _ (validUtf8_ascii 10 (by omega))
                  (validUtf8_append _ _ (validUtf8_indentRep indent _ hind)
                    (validUtf8_ascii b hb))
            · by_cases hd0 : (p.depth - 1 == 0) = true
              · rw [if_pos hd0]
                exact validUtf8_ascii 10 (by omega)
              · rw [if_neg hd0]
                exact validUtf8_nil
          · have hsh : (ppStep indent p b).2.whitespace_buffer =
                p.whitespace_buffer := by
              simp [ppStep, h1, hws, h2, h3]
            rw [hsh]
            exact hbuf
        · rw [Bool.not_eq_true] at h3
          by_cases h4 : (b == 44) = true
          · constructor
            · have hsh : (ppStep indent p b).1 =
                  [b] ++ ([10] ++ indentRep indent p.depth) := by
                simp [ppStep, h1, hws, h2, h3, h4]
              rw [hsh]
              exact validUtf8_append _ _ (validUtf8_ascii b hb)
                (validUtf8_append _ _ (validUtf8_ascii 10 (by omega))
                  (validUtf8_indentRep indent _ hind))
            · have hsh : (ppStep indent p b).2.whitespace_buffer =
                  p.whitespace_buffer := by
                simp [ppStep, h1, hws, h2, h3, h4]
              rw [hsh]
              exact hbuf
          · rw [Bool.not_eq_true] at h4
            by_cases h5 : (b == 58) = true
            · constructor
              · have hsh : (ppStep indent p b).1 = [58, 32] := by
                  simp [ppStep, h1, hws, h2, h3, h4, h5]
                rw [hsh]
                exact validUtf8_allAscii [58, 32] (by decide)
              · have hsh : (ppStep indent p b).2.whitespace_buffer =
                    p.whitespace_buffer := by
                  simp [ppStep, h1, hws, h2, h3, h4, h5]
                rw [hsh]
                exact hbuf
            · rw [Bool.not_eq_true] at h5
              constructor
              · have hsh : (ppStep indent p b).1 =
                    (if p.current_structure_is_empty = true
                     then p.whitespace_buffer else []) ++ [b] := by
                  simp [ppStep, h1, hws, h2, h3, h4, h5]
                rw [hsh]
                apply validUtf8_append
                · by_cases hce : p.current_structure_is_empty = true
                  · rw [if_pos hce]
                    exact hbuf
                  · rw [if_neg hce]
                    exact validUtf8_nil
                · exact validUtf8_ascii b hb
              · have hsh : (ppStep indent p b).2.whitespace_buffer =
                    p.whitespace_buffer := by
                  simp [ppStep, h1, hws, h2, h3, h4, h5]
                rw [hsh]
                exact hbuf

theorem ppStep_hi (indent : List Nat) (p : PPState) (b : Nat) (hb : 128 ≤ b) :
    (ppStep indent p b).1 =
      (if p.in_string = false ∧ p.current_structure_is_empty = true
       then p.whitespace_buffer else []) ++ [b] ∧
      (ppStep indent p b).2.in_string = p.in_string ∧
      (ppStep indent p b).2.whitespace_buffer = p.whitespace_buffer ∧
      (p.in_string = false → (ppStep indent p b).2.current_structure_is_empty = false) := by
  have hws : isWsByte b = false := by
    simp [isWsByte]
    omega
  have h34 : (b == 34) = false := by
    simp
    omega
  have h92 : (b == 92) = false := by
    simp
    omega
  have h2 : (b == 123 || b == 91) = false := by
    simp
    omega
  have h3 : (b == 125 || b == 93) = false := by
    simp
    omega
  have h4 : (b == 44) = false := by
    simp
    omega
  have h5 : (b == 58) = false := by
    simp
    omega
  by_cases h1 : p.in_string = true
  · refine ⟨?_, ?_, ?_, ?_⟩
    · simp [ppStep, h1]
    · by_cases hbsl : p.in_backslash = true <;> simp [ppStep, h1, hbsl, h34, h92]
    · by_cases hbsl : p.in_backslash = true <;> simp [ppStep, h1, hbsl, h34, h92]
    · intro hcontra
      rw [hcontra] at h1
      simp at h1
  · rw [Bool.not_eq_true] at h1
    refine ⟨?_, ?_, ?_, ?_⟩
    · by_cases hce : p.current_structure_is_empty = true <;>
        simp [ppStep, h1, hws, h2, h3, h4, h5, hce]
    · simp [ppStep, h1, hws, h2, h3, h4, h5, h34]
    · simp [ppStep, h1, hws, h2, h3, h4, h5]
    · intro _
      simp [ppStep, h1, hws, h2, h3, h4, h5]

theorem ppRun_hi_tail (indent : List Nat) :
    ∀ (c : List Nat) (p : PPState), (∀ x ∈ c, 128 ≤ x) →
      (p.in_string = true ∨ p.current_structure_is_empty = false) →
      (ppRun indent p c).1 = c ∧
        (ppRun indent p c).2.whitespace_buffer = p.whitespace_buffer := by
  intro c
  induction c with
  | nil =>
    intro p _ _
    simp [ppRun]
  | cons x xs ih =>
    intro p hx hnf
    have hhi : 128 ≤ x := hx x (List.mem_cons_self x xs)
    obtain ⟨e1, e2, e3, e4⟩ := ppStep_hi indent p x hhi
    have hflush : (if p.in_string = false ∧ p.current_structure_is_empty = true
        then p.whitespace_buffer else []) = [] := by
      rcases hnf with h | h
      · rw [if_neg]
        intro hcon
        rw [h] at hcon
        simp at hcon
      · rw [if_neg]
        intro hcon
        rw [h] at hcon
        simp at hcon
    have hnf' : (ppStep indent p x).2.in_string = true ∨
        (ppStep indent p x).2.current_structure_is_empty = false := by
      by_cases hs : p.in_string = true
      · left
        rw [e2]
        exact hs
      · right
        rw [Bool.not_eq_true] at hs
        exact e4 hs
    obtain ⟨o1, o2⟩ := ih (ppStep indent p x).2
      (fun y hy => hx y (List.mem_cons_of_mem x hy)) hnf'
    constructor
    · simp only [ppRun]
      rw [e1, hflush, o1]
      simp
    · simp only [ppRun]
      rw [o2, e3]

theorem utf8CharB_hi (c : List Nat) (hc : utf8CharB c = true)
    (hlen : 2 ≤ c.length) : ∀ x ∈ c, 128 ≤ x := by
  match c with
  | [] => simp at hlen
  | [b] => simp at hlen
  | [b, c2] =>
    have h : (194 ≤ b ∧ b ≤ 223) ∧ 128 ≤ c2 ∧ c2 ≤ 191 := by
      simpa [utf8CharB, isCont] using hc
    intro x hx
    simp at hx
    rcases hx with rfl | rfl <;> omega
  | [b, c2, d] =>
    have h : (128 ≤ d ∧ d ≤ 191) ∧
        (((b = 224 ∧ 160 ≤ c2 ∧ c2 ≤ 191 ∨
           (225 ≤ b ∧ b ≤ 236) ∧ 128 ≤ c2 ∧ c2 ≤ 191) ∨
          b = 237 ∧ 128 ≤ c2 ∧ c2 ≤ 159) ∨
         (238 ≤ b ∧ b ≤ 239) ∧ 128 ≤ c2 ∧ c2 ≤ 191) := by
      simpa [utf8CharB, isCont] using hc
    have hb : 128 ≤ b ∧ 128 ≤ c2 := by
      rcases h.2 with ((⟨hb, h1, h2⟩ | ⟨⟨h1, h2⟩, h3, h4⟩) | ⟨hb, h1, h2⟩) |
        ⟨⟨h1, h2⟩, h3, h4⟩ <;> omega
    intro x hx
    simp at hx
    rcases hx with rfl | rfl | rfl
    · exact hb.1
    · exact hb.2
    · exact h.1.1
  | [b, c2, d, e] =>
    have h : ((128 ≤ d ∧ d ≤ 191) ∧ 128 ≤ e ∧ e ≤ 191) ∧
        ((b = 240 ∧ 144 ≤ c2 ∧ c2 ≤ 191 ∨
          (241 ≤ b ∧ b ≤ 243) ∧ 128 ≤ c2 ∧ c2 ≤ 191) ∨
         b = 244 ∧ 128 ≤ c2 ∧ c2 ≤ 143) := by
      simpa [utf8CharB, isCont] using hc
    have hb : 128 ≤ b ∧ 128 ≤ c2 := by
      rcases h.2 with (⟨hb, h1, h2⟩ | ⟨⟨h1, h2⟩, h3, h4⟩) | ⟨hb, h1, h2⟩ <;> omega
    intro x hx
    simp at hx
    rcases hx with rfl | rfl | rfl | rfl
    · exact hb.1
    · exact hb.2
    · exact h.1.1.1
    · exact h.1.2.1
  | b :: c2 :: d :: e :: f :: t => simp [utf8CharB] at hc

theorem ppRun_cons_fst (indent : List Nat) (s : PPState) (b : Nat) (bs : List Nat) :
    (ppRun indent s (b :: bs)).1 =
      (ppStep indent s b).1 ++ (ppRun indent (ppStep indent s b).2 bs).1 := rfl

theorem ppRun_cons_snd (indent : List Nat) (s : PPState) (b : Nat) (bs : List Nat) :
    (ppRun indent s (b :: bs)).2 = (ppRun indent (ppStep indent s b).2 bs).2 := rfl

theorem ppRun_char_valid (indent : List Nat) (hind : ValidUtf8 indent)
    (c : List Nat) (hc : utf8CharB c = true) (p : PPState)
    (hbuf : ValidUtf8 p.whitespace_buffer) :
    ValidUtf8 (ppRun indent p c).1 ∧
      ValidUtf8 (ppRun indent p c).2.whitespace_buffer := by
  match c with
  | [] => simp [utf8CharB] at hc
  | [b] =>
    have hb : b ≤ 127 := by simpa [utf8CharB] using hc
    obtain ⟨v1, v2⟩ := ppStep_ascii_valid indent hind p b hb hbuf
    constructor
    · simp only [ppRun]
      simpa using v1
    · simp only [ppRun]
      exact v2
  | b :: c2 :: rest =>
    have hhi : ∀ x ∈ (b :: c2 :: rest), 128 ≤ x :=
      utf8CharB_hi _ hc (by simp)
    have hb : 128 ≤ b := hhi b (List.mem_cons_self b _)
    obtain ⟨e1, e2, e3, e4⟩ := ppStep_hi indent p b hb
    have hnf' : (ppStep indent p b).2.in_string = true ∨
        (ppStep indent p b).2.current_structure_is_empty = false := by
      by_cases hs : p.in_string = true
      · left
        rw [e2]
        exact hs
      · right
        rw [Bool.not_eq_true] at hs
        exact e4 hs
    obtain ⟨t1, t2⟩ := ppRun_hi_tail indent (c2 :: rest) (ppStep indent p b).2
      (fun y hy => hhi y (List.mem_cons_of_mem b hy)) hnf'
    constructor
    · rw [ppRun_cons_fst, e1, t1, List.append_assoc]
      apply validUtf8_append
      · by_cases hce : p.in_string = false ∧ p.current_structure_is_empty = true
        · rw [if_pos hce]
          exact hbuf
        · rw [if_neg hce]
          exact validUtf8_nil
      · exact ⟨[b :: c2 :: rest],
          by
            intro z hz
            simp at hz
            subst hz
            exact hc,
          by simp⟩
    · rw [ppRun_cons_snd, t2, e3]
      exact hbuf

theorem ppRun_valid_chars (indent : List Nat) (hind : ValidUtf8 indent) :
    ∀ (cs : List (List Nat)) (p : PPState),
      (∀ c ∈ cs, utf8CharB c = true) → ValidUtf8 p.whitespace_buffer →
      ValidUtf8 (ppRun indent p cs.flatten).1 ∧
        ValidUtf8 (ppRun indent p cs.flatten).2.whitespace_buffer := by
  intro cs
  induction cs with
  | nil =>
    intro p _ hbuf
    constructor
    · simp only [List.flatten_nil, ppRun]
      exact validUtf8_nil
    · simp only [List.flatten_nil, ppRun]
      exact hbuf
  | cons c cs' ih =>
    intro p hcs hbuf
    obtain ⟨v1, v2⟩ := ppRun_char_valid indent hind c
      (hcs c (List.mem_cons_self c cs')) p hbuf
    obtain ⟨w1, w2⟩ := ih (ppRun indent p c).2
      (fun x hx => hcs x (List.mem_cons_of_mem c hx)) v2
    constructor
    · rw [List.flatten_cons, ppRun_append]
      exact validUtf8_append _ _ v1 w1
    · rw [List.flatten_cons, ppRun_append]
      exact w2

theorem minStep_chunk_mem (m : MinState) (b : Nat) :
    ∀ x ∈ (minStep m b).1, x = 10 ∨ x = b := by
  intro x hx
  unfold minStep at hx
  split_ifs at hx <;> simp_all

theorem minStep_ascii_valid (m : MinState) (b : Nat) (hb : b ≤ 127) :
    ValidUtf8 (minStep m b).1 := by
  apply validUtf8_allAscii
  intro x hx
  rcases minStep_chunk_mem m b x hx with rfl | rfl
  · omega
  · exact hb

theorem minStep_hi (m : MinState) (b : Nat) (hb : 128 ≤ b) :
    (minStep m b).1 = [b] := by
  have hws : isWsByte b = false := by
    simp [isWsByte]
    omega
  have h2 : (b == 123 || b == 91) = false := by
    simp
    omega
  have h3 : (b == 125 || b == 93) = false := by
    simp
    omega
  by_cases h1 : m.in_string = true
  · simp [minStep, h1]
  · rw [Bool.not_eq_true] at h1
    simp [minStep, h1, hws, h2, h3]

theorem minRun_hi :
    ∀ (c : List Nat), (∀ x ∈ c, 128 ≤ x) → ∀ m : MinState,
      (minRun m c).1 = c := by
  intro c
  induction c with
  | nil =>
    intro _ m
    simp [minRun]
  | cons x xs ih =>
    intro hx m
    simp only [minRun]
    rw [minStep_hi m x (hx x (List.mem_cons_self x xs)),
      ih (fun y hy => hx y (List.mem_cons_of_mem x hy)) (minStep m x).2]
    rfl

theorem minRun_char_valid (c : List Nat) (hc : utf8CharB c = true)
    (m : MinState) : ValidUtf8 (minRun m c).1 := by
  match c with
  | [] => simp [utf8CharB] at hc
  | [b] =>
    have hb : b ≤ 127 := by simpa [utf8CharB] using hc
    simp only [minRun]
    simpa using minStep_ascii_valid m b hb
  | b :: c2 :: rest =>
    have hhi : ∀ x ∈ (b :: c2 :: rest), 128 ≤ x :=
      utf8CharB_hi _ hc (by simp)
    rw [minRun_hi _ hhi m]
    exact ⟨[b :: c2 :: rest],
      by
        intro z hz
        simp at hz
        subst hz
        exact hc,
      by simp⟩

theorem minRun_valid_chars :
    ∀ (cs : List (List Nat)) (m : MinState),
      (∀ c ∈ cs, utf8CharB c = true) →
      ValidUtf8 (minRun m cs.flatten).1 := by
  intro cs
  induction cs with
  | nil =>
    intro m _
    simp only [List.flatten_nil, minRun]
    exact validUtf8_nil
  | cons c cs' ih =>
    intro m hcs
    rw [List.flatten_cons, minRun_append]
    exact validUtf8_append _ _
      (minRun_char_valid c (hcs c (List.mem_cons_self c cs')) m)
      (ih (minRun m c).2 (fun x hx => hcs x (List.mem_cons_of_mem c hx)))

/-- C10: for valid UTF-8 input and indent, both convenience wrappers
return Ok with the transformed bytes: the transformed byte sequence is
again valid UTF-8 (only ASCII whitespace is dropped and only ASCII bytes
or copies of the indent are inserted), so the UTF-8 conversion cannot
fail; with an in-memory source and sink no I/O error exists to propagate,
so no error branch is reachable. -/
theorem wrappers_return_ok (xs indent : List Nat)
    (hxs : ValidUtf8 xs) (hind : ValidUtf8 indent) :
    pretty_print xs indent = Except.ok (pretty_print_stream xs indent) ∧
      minimize xs = Except.ok (minimize_stream xs) := by
  obtain ⟨cs, hcs, hflat⟩ := hxs
  constructor
  · have hv : ValidUtf8 (pretty_print_stream xs indent) := by
      rw [hflat]
      exact (ppRun_valid_chars indent hind cs ppInit hcs validUtf8_nil).1
    unfold pretty_print
    rw [if_pos (validUtf8B_sound _ hv)]
  · have hv : ValidUtf8 (minimize_stream xs) := by
      rw [hflat]
      exact minRun_valid_chars cs minInit hcs
    unfold minimize
    rw [if_pos (validUtf8B_sound _ hv)]

/-- Witness for the C10 theorem: the ASCII input of an empty object with
a one-space indent; both wrappers return Ok. -/
theorem wrappers_return_ok_witness :
    pretty_print [123, 125] [32] = Except.ok (pretty_print_stream [123, 125] [32]) ∧
      minimize [123, 125] = Except.ok (minimize_stream [123, 125]) :=
  wrappers_return_ok [123, 125] [32]
    ⟨[[123], [125]], by decide, rfl⟩ ⟨[[32]], by decide, rfl⟩

example : minimize_stream [123, 32, 34, 97, 34, 58, 32, 34, 98, 34, 44, 32, 34, 99, 34, 58, 32, 48, 32, 125, 32] =
    [123, 34, 97, 34, 58, 34, 98, 34, 44, 34, 99, 34, 58, 48, 125] := by decide

example : minimize_stream [13, 10, 9, 110, 117, 108, 108, 13, 10] = [110, 117, 108, 108] := by decide

example : minimize_stream [49, 32, 50, 32, 51] = [49, 50, 51] := by decide

example : pretty_print_stream [123, 125] [32, 32] = [123, 125, 10] := by decide

example : minimize_stream [123, 125, 123, 125] = [123, 125, 10, 123, 125] := by decide

end Jsonxf
